import Mathlib

/-!
Verification of the LevelNotes note-storage core
(`apps/desktop/src-tauri/src/main.rs`) against its specification.

The Rust source is shallowly embedded: pure helpers (`merge_tags`, the
append merge expressions, path-component parsing, markdown export shaping)
become Lean functions, and the SQLite `notes` table together with its FTS
triggers becomes an explicit state type with state-passing operations
mirroring each HTTP route's database work.  All definitions are
executable, so every theorem can be checked on concrete inputs.
-/

namespace LevelNotes

/-- Embeds the Rust merge expression for plaintext/html in `/append/:id`
(main.rs lines 191-192):
`if let Some(prev)=old { if !add.is_empty() && !prev.is_empty() { format!("{}\n\n{}", prev, add) } else if prev.is_empty() { add } else { prev } } else { add }`. -/
def mergeText (existing : Option String) (addition : String) : String :=
  match existing with
  | some prev =>
      if addition ≠ "" ∧ prev ≠ "" then prev ++ "\n\n" ++ addition
      else if prev = "" then addition
      else prev
  | none => addition

/-- The Unicode `White_Space` code points, which is what Rust's
`char::is_whitespace` (used by `str::trim`) recognizes. -/
def rustIsWs (c : Char) : Bool :=
  (0x09 ≤ c.toNat && c.toNat ≤ 0x0D) || c.toNat = 0x20 || c.toNat = 0x85 ||
  c.toNat = 0xA0 || c.toNat = 0x1680 ||
  (0x2000 ≤ c.toNat && c.toNat ≤ 0x200A) ||
  c.toNat = 0x2028 || c.toNat = 0x2029 || c.toNat = 0x202F ||
  c.toNat = 0x205F || c.toNat = 0x3000

/-- Embeds Rust's `str::trim`: strip leading and trailing whitespace. -/
def rustTrim (s : String) : String :=
  ⟨(((s.data.dropWhile rustIsWs).reverse).dropWhile rustIsWs).reverse⟩

/-! ### The string order of Rust's `BTreeSet<String>`

Rust compares `String`s by their UTF-8 bytes; byte-lexicographic order on
UTF-8 coincides with code-point-lexicographic order, embedded here
directly on the character lists. -/

/-- Strict code-point-lexicographic order on char lists. -/
def lexLt : List Char → List Char → Bool
  | [], [] => false
  | [], _ :: _ => true
  | _ :: _, [] => false
  | a :: as, b :: bs =>
      if a.toNat < b.toNat then true
      else if b.toNat < a.toNat then false
      else lexLt as bs

/-- Strict order on strings, as Rust's `Ord for String`. -/
def strLt (a b : String) : Bool := lexLt a.data b.data

/-- `strLt` as a relation. -/
def strLtP (a b : String) : Prop := strLt a b = true

instance : DecidableRel strLtP := fun a b => by
  unfold strLtP; infer_instance

theorem lexLt_irrefl (l : List Char) : lexLt l l = false := by
  induction l with
  | nil => rfl
  | cons a as ih => simp [lexLt, ih]

theorem lexLt_trans : ∀ (a b c : List Char),
    lexLt a b = true → lexLt b c = true → lexLt a c = true
  | [], [], _, h, _ => by simp [lexLt] at h
  | [], _ :: _, [], _, h => by simp [lexLt] at h
  | [], _ :: _, _ :: _, _, _ => rfl
  | _ :: _, [], _, h, _ => by simp [lexLt] at h
  | _ :: _, _ :: _, [], _, h => by simp [lexLt] at h
  | a :: as, b :: bs, c :: cs, h₁, h₂ => by
      simp only [lexLt] at h₁ h₂ ⊢
      by_cases hab : a.toNat < b.toNat <;> by_cases hbc : b.toNat < c.toNat
      · simp [Nat.lt_trans hab hbc]
      · by_cases hcb : c.toNat < b.toNat
        · simp [hbc, hcb] at h₂
        · have hac : a.toNat < c.toNat := by omega
          simp [hac]
      · by_cases hba : b.toNat < a.toNat
        · simp [hab, hba] at h₁
        · have hac : a.toNat < c.toNat := by omega
          simp [hac]
      · by_cases hba : b.toNat < a.toNat
        · simp [hab, hba] at h₁
        · by_cases hcb : c.toNat < b.toNat
          · simp [hbc, hcb] at h₂
          · have h₁' : lexLt as bs = true := by simpa [hab, hba] using h₁
            have h₂' : lexLt bs cs = true := by simpa [hbc, hcb] using h₂
            have hac : ¬ a.toNat < c.toNat := by omega
            have hca : ¬ c.toNat < a.toNat := by omega
            simp only [hac, hca, if_neg, ite_false, if_false]
            simpa [hac, hca] using lexLt_trans as bs cs h₁' h₂'

theorem lexLt_eq_of_not : ∀ (a b : List Char),
    lexLt a b = false → lexLt b a = false → a = b
  | [], [], _, _ => rfl
  | [], _ :: _, h, _ => by simp [lexLt] at h
  | _ :: _, [], _, h => by simp [lexLt] at h
  | a :: as, b :: bs, h₁, h₂ => by
      simp only [lexLt] at h₁ h₂
      by_cases hab : a.toNat < b.toNat
      · simp [hab] at h₁
      · by_cases hba : b.toNat < a.toNat
        · simp [hab, hba] at h₂
        · have hn : a.toNat = b.toNat := by omega
          have hc : a = b :=
            Char.eq_of_val_eq (UInt32.eq_of_toBitVec_eq (BitVec.eq_of_toNat_eq hn))
          subst hc
          have h₁' : lexLt as bs = false := by simpa [hab] using h₁
          have h₂' : lexLt bs as = false := by simpa [hab] using h₂
          rw [lexLt_eq_of_not as bs h₁' h₂']

instance : IsIrrefl String strLtP :=
  ⟨fun a h => by simp [strLtP, strLt, lexLt_irrefl] at h⟩

instance : IsTrans String strLtP :=
  ⟨fun a b c h₁ h₂ => lexLt_trans a.data b.data c.data h₁ h₂⟩

instance : IsAntisymm String strLtP :=
  ⟨fun a _ h₁ h₂ =>
    absurd (lexLt_trans _ _ _ h₁ h₂) (by simp [lexLt_irrefl])⟩

theorem strLt_total {a b : String} (h₁ : strLt a b = false)
    (h₂ : strLt b a = false) : a = b := by
  have h := lexLt_eq_of_not a.data b.data h₁ h₂
  cases a; cases b; exact congrArg String.mk h

/-- One insertion into the ordered set underlying `merge_tags`'s
`BTreeSet<String>` (main.rs line 106): keep the list strictly sorted,
do nothing if the element is already present. -/
def insertTag (t : String) : List String → List String
  | [] => [t]
  | b :: l =>
      if strLt t b then t :: b :: l
      else if t = b then b :: l
      else b :: insertTag t l

theorem mem_insertTag (t x : String) (l : List String) :
    x ∈ insertTag t l ↔ x = t ∨ x ∈ l := by
  induction l with
  | nil => simp [insertTag]
  | cons b l ih =>
      simp only [insertTag]
      by_cases h₁ : strLt t b = true
      · rw [if_pos h₁]
        exact List.mem_cons
      · rw [if_neg h₁]
        by_cases h₂ : t = b
        · subst h₂
          rw [if_pos rfl]
          simp only [List.mem_cons]
          tauto
        · rw [if_neg h₂]
          simp only [List.mem_cons, ih]
          tauto

theorem sorted_insertTag (t : String) (l : List String)
    (h : l.Sorted strLtP) : (insertTag t l).Sorted strLtP := by
  induction l with
  | nil => simp [insertTag, List.Sorted]
  | cons b l ih =>
      rw [List.sorted_cons] at h
      obtain ⟨hb, hl⟩ := h
      simp only [insertTag]
      by_cases h₁ : strLt t b = true
      · rw [if_pos h₁, List.sorted_cons]
        refine ⟨?_, List.sorted_cons.2 ⟨hb, hl⟩⟩
        intro y hy
        rcases List.mem_cons.1 hy with hy | hy
        · subst hy; exact h₁
        · exact lexLt_trans _ _ _ h₁ (hb y hy)
      · rw [if_neg h₁]
        by_cases h₂ : t = b
        · rw [if_pos h₂]; exact List.sorted_cons.2 ⟨hb, hl⟩
        · rw [if_neg h₂, List.sorted_cons]
          refine ⟨?_, ih hl⟩
          intro y hy
          rcases (mem_insertTag t y l).1 hy with hy | hy
          · subst hy
            have h₃ : strLt b y = false → False := fun hf =>
              h₂ (strLt_total (by simpa using h₁) hf)
            cases hbt : strLt b y with
            | true => exact hbt
            | false => exact absurd hbt h₃
          · exact hb y hy

/-- Collect a list into the ordered set (the `collect()` into a
`BTreeSet<String>` on main.rs lines 103-105, after JSON parsing). -/
def tagSetOf (l : List String) : List String :=
  l.foldl (fun s t => insertTag t s) []

/-- One step of the addition loop in `merge_tags` (main.rs line 106):
trim the addition, drop it if empty, otherwise insert. -/
def tagStep (s : List String) (t : String) : List String :=
  if rustTrim t = "" then s else insertTag (rustTrim t) s

/-- The set-level content of `merge_tags` (main.rs lines 102-108): collect
the parsed existing tags into an ordered set, insert each trimmed
non-empty addition, and read the set off as its sorted sequence (a Rust
`BTreeSet<String>` iterates in ascending order). -/
def mergeTagsCore (old : List String) (add : List String) : List String :=
  add.foldl tagStep (tagSetOf old)

/-- The normalized additions: each addition trimmed, empties dropped
(the filter/trim in main.rs line 106). -/
def normTags (add : List String) : List String :=
  add.filterMap (fun t => if rustTrim t = "" then none else some (rustTrim t))

theorem mem_normTags (add : List String) (x : String) :
    x ∈ normTags add ↔ ∃ t ∈ add, rustTrim t ≠ "" ∧ rustTrim t = x := by
  simp only [normTags, List.mem_filterMap]
  constructor
  · rintro ⟨t, ht, h⟩
    by_cases he : rustTrim t = ""
    · simp [he] at h
    · rw [if_neg he, Option.some_inj] at h
      exact ⟨t, ht, he, h⟩
  · rintro ⟨t, ht, he, h⟩
    exact ⟨t, ht, by rw [if_neg he, h]⟩

theorem sorted_foldl_insert (l : List String) (s : List String)
    (h : s.Sorted strLtP) :
    (l.foldl (fun s t => insertTag t s) s).Sorted strLtP := by
  induction l generalizing s with
  | nil => exact h
  | cons t l ih => exact ih _ (sorted_insertTag t s h)

theorem sorted_foldl_tagStep (l : List String) (s : List String)
    (h : s.Sorted strLtP) : (l.foldl tagStep s).Sorted strLtP := by
  induction l generalizing s with
  | nil => exact h
  | cons t l ih =>
      refine ih _ ?_
      unfold tagStep
      by_cases he : rustTrim t = ""
      · rwa [if_pos he]
      · rw [if_neg he]; exact sorted_insertTag _ s h

theorem mem_foldl_insert (l : List String) (s : List String) (x : String) :
    x ∈ l.foldl (fun s t => insertTag t s) s ↔ x ∈ s ∨ x ∈ l := by
  induction l generalizing s with
  | nil => simp
  | cons t l ih =>
      rw [List.foldl_cons, ih, mem_insertTag]
      simp
      tauto

theorem mem_foldl_tagStep (l : List String) (s : List String) (x : String) :
    x ∈ l.foldl tagStep s ↔ x ∈ s ∨ x ∈ normTags l := by
  induction l generalizing s with
  | nil => simp [normTags]
  | cons t l ih =>
      rw [List.foldl_cons, ih]
      unfold tagStep
      by_cases he : rustTrim t = ""
      · simp [he, normTags, List.filterMap_cons]
      · rw [if_neg he, mem_insertTag]
        simp [normTags, List.filterMap_cons, if_neg he]
        tauto

theorem mergeTagsCore_sorted (old add : List String) :
    (mergeTagsCore old add).Sorted strLtP :=
  sorted_foldl_tagStep add _ (sorted_foldl_insert old [] (by simp))

theorem mergeTagsCore_nodup (old add : List String) :
    (mergeTagsCore old add).Nodup :=
  (mergeTagsCore_sorted old add).nodup

theorem mem_mergeTagsCore (old add : List String) (x : String) :
    x ∈ mergeTagsCore old add ↔
      x ∈ old ∨ ∃ t ∈ add, rustTrim t ≠ "" ∧ rustTrim t = x := by
  rw [mergeTagsCore, mem_foldl_tagStep, tagSetOf, mem_foldl_insert,
    mem_normTags]
  simp

/-- Two strictly sorted lists with the same members are equal. -/
theorem sortedTags_ext {l l' : List String} (hl : l.Sorted strLtP)
    (hl' : l'.Sorted strLtP) (h : ∀ x, x ∈ l ↔ x ∈ l') : l = l' :=
  List.eq_of_perm_of_sorted
    (List.perm_of_nodup_nodup_toFinset_eq hl.nodup hl'.nodup
      (by ext x; simp only [List.mem_toFinset]; exact h x)) hl hl'

theorem mergeTagsCore_idem (old add : List String) :
    mergeTagsCore (mergeTagsCore old add) add = mergeTagsCore old add := by
  refine sortedTags_ext (mergeTagsCore_sorted _ _) (mergeTagsCore_sorted _ _)
    (fun x => ?_)
  simp only [mem_mergeTagsCore]
  tauto

theorem mergeTagsCore_comm (old : List String) {add add' : List String}
    (h : add.Perm add') : mergeTagsCore old add = mergeTagsCore old add' := by
  refine sortedTags_ext (mergeTagsCore_sorted _ _) (mergeTagsCore_sorted _ _)
    (fun x => ?_)
  rw [mem_mergeTagsCore, mem_mergeTagsCore]
  constructor <;> rintro (hx | ⟨t, ht, he⟩)
  · exact Or.inl hx
  · exact Or.inr ⟨t, h.mem_iff.1 ht, he⟩
  · exact Or.inl hx
  · exact Or.inr ⟨t, h.mem_iff.2 ht, he⟩

theorem mergeTagsCore_subset (old add : List String) (x : String)
    (hx : x ∈ old) : x ∈ mergeTagsCore old add :=
  (mem_mergeTagsCore old add x).2 (Or.inl hx)

/-! ### JSON transport for tag sets (`serde_json` on `Vec<String>`) -/

/-- JSON whitespace accepted between tokens by `serde_json`. -/
def jsonWs (c : Char) : Bool :=
  c = ' ' || c = '\t' || c = '\n' || c = '\r'

/-- Drop leading JSON whitespace. -/
def skipWs : List Char → List Char
  | [] => []
  | c :: rest => if jsonWs c then skipWs rest else c :: rest

/-- Value of a hex digit, as accepted in a JSON `\uXXXX` escape. -/
def hexVal (c : Char) : Option Nat :=
  if '0' ≤ c ∧ c ≤ '9' then some (c.toNat - '0'.toNat)
  else if 'a' ≤ c ∧ c ≤ 'f' then some (c.toNat - 'a'.toNat + 10)
  else if 'A' ≤ c ∧ c ≤ 'F' then some (c.toNat - 'A'.toNat + 10)
  else none

/-- Value of a four-hex-digit group in a `\uXXXX` escape. -/
def hex4 (a b c d : Char) : Option Nat := do
  let va ← hexVal a
  let vb ← hexVal b
  let vc ← hexVal c
  let vd ← hexVal d
  pure (((va * 16 + vb) * 16 + vc) * 16 + vd)

/-- Single-character JSON escapes (`\"`, `\\`, `\/`, `\b`, `\f`, `\n`,
`\r`, `\t`); anything else is rejected, as `serde_json` does. -/
def unescape (c : Char) : Option Char :=
  if c = '"' then some '"'
  else if c = '\\' then some '\\'
  else if c = '/' then some '/'
  else if c = 'b' then some (Char.ofNat 8)
  else if c = 'f' then some (Char.ofNat 12)
  else if c = 'n' then some '\n'
  else if c = 'r' then some (Char.ofNat 13)
  else if c = 't' then some '\t'
  else none

/-- Decode one simple escape or one raw character, given the parser `k`
for the rest of the string body. -/
def parseEscF (k : List Char → Option (List Char × List Char)) :
    List Char → Option (List Char × List Char)
  | [] => none
  | e :: rest2 =>
      if e = 'u' then none
      else
        (unescape e).bind fun ch =>
          (k rest2).map fun p => (ch :: p.1, p.2)

/-- Decode a `\uXXXX` escape (after the `\u`), combining surrogate pairs
and rejecting lone surrogates, given the parser `k` for the rest of the
string body. -/
def parseUniF (k : List Char → Option (List Char × List Char)) :
    List Char → Option (List Char × List Char)
  | a :: b :: c2 :: d :: rest3 =>
      (hex4 a b c2 d).bind fun n =>
        if 0xD800 ≤ n ∧ n ≤ 0xDBFF then
          match rest3 with
          | x :: y :: e2 :: f2 :: g2 :: h2 :: rest4 =>
              if x = '\\' ∧ y = 'u' then
                (hex4 e2 f2 g2 h2).bind fun m =>
                  if 0xDC00 ≤ m ∧ m ≤ 0xDFFF then
                    (k rest4).map fun p =>
                      (Char.ofNat (0x10000 + (n - 0xD800) * 0x400 + (m - 0xDC00)) :: p.1,
                       p.2)
                  else none
              else none
          | _ => none
        else if 0xDC00 ≤ n ∧ n ≤ 0xDFFF then none
        else (k rest3).map fun p => (Char.ofNat n :: p.1, p.2)
  | _ => none

/-- Parse a JSON string body (the part after the opening quote), returning
the decoded characters and the remaining input; `fuel` bounds the
recursion and always suffices when it exceeds the input length. Mirrors
`serde_json`: raw control characters are rejected, `\uXXXX` escapes are
decoded with surrogate pairs combined and lone surrogates rejected. -/
def parseStrF : Nat → List Char → Option (List Char × List Char)
  | 0, _ => none
  | _ + 1, [] => none
  | f + 1, c :: rest =>
      if c = '"' then some ([], rest)
      else if c = '\\' then
        match rest with
        | [] => none
        | e :: rest2 =>
            if e = 'u' then parseUniF (parseStrF f) rest2
            else parseEscF (parseStrF f) rest
      else if c.toNat < 0x20 then none
      else (parseStrF f rest).map fun p => (c :: p.1, p.2)

/-- The string-body parser with enough fuel for its input. -/
def parseStr (cs : List Char) : Option (List Char × List Char) :=
  parseStrF (cs.length + 1) cs

/-- Parse the elements after the first string of a JSON array: a `]` ends
the array, a `,` must be followed by another string. `fuel` bounds the
recursion; callers pass the input length, which always suffices. -/
def parseRest (fuel : Nat) (cs : List Char) : Option (List String × List Char) :=
  match fuel with
  | 0 => none
  | f + 1 =>
      match skipWs cs with
      | [] => none
      | c :: rest =>
          if c = ']' then some ([], rest)
          else if c = ',' then
            match skipWs rest with
            | [] => none
            | c2 :: rest2 =>
                if c2 = '"' then
                  match parseStr rest2 with
                  | none => none
                  | some (s, rest3) =>
                      match parseRest f rest3 with
                      | none => none
                      | some (ss, r) => some (String.mk s :: ss, r)
                else none
          else none

/-- Parse a complete JSON document that must be an array of strings with
nothing but whitespace around it — the embedding of
`serde_json::from_str::<Vec<String>>` as used by `merge_tags`
(main.rs line 104); `None` models a parse error. -/
def parseArr (s : String) : Option (List String) :=
  match skipWs s.data with
  | [] => none
  | c :: rest =>
      if c = '[' then
        (match skipWs rest with
         | [] => none
         | c2 :: rest2 =>
             if c2 = ']' then some ([], rest2)
             else if c2 = '"' then
               match parseStr rest2 with
               | none => none
               | some (t, rest3) =>
                   match parseRest s.length rest3 with
                   | none => none
                   | some (ts, r) => some (String.mk t :: ts, r)
             else none).bind
          (fun p => if skipWs p.2 = [] then some p.1 else none)
      else none

/-- `serde_json`'s escaping of one character inside a JSON string:
quote and backslash get a backslash escape, the five short-escape control
characters use their mnemonics, other control characters become
`\u00XX` with lowercase hex, everything else passes through. -/
def escapeChar (c : Char) : List Char :=
  if c = '"' then ['\\', '"']
  else if c = '\\' then ['\\', '\\']
  else if c.toNat = 8 then ['\\', 'b']
  else if c = '\t' then ['\\', 't']
  else if c = '\n' then ['\\', 'n']
  else if c.toNat = 12 then ['\\', 'f']
  else if c.toNat = 13 then ['\\', 'r']
  else if c.toNat < 0x20 then
    ['\\', 'u', '0', '0',
     "0123456789abcdef".data.getD (c.toNat / 16) '0',
     "0123456789abcdef".data.getD (c.toNat % 16) '0']
  else [c]

/-- The characters of one JSON string literal, `serde_json` style. -/
def litChars (s : String) : List Char :=
  '"' :: s.data.flatMap escapeChar ++ ['"']

/-- The serialized elements of a JSON array after the first: every further
element is preceded by a comma, and a closing bracket ends the array. -/
def restChars : List String → List Char
  | [] => [']']
  | s :: rest => ',' :: (litChars s ++ restChars rest)

/-- The embedding of `serde_json::to_string::<Vec<String>>`: a compact
JSON array of string literals (main.rs line 107). -/
def serializeArr (l : List String) : String :=
  ⟨'[' :: (match l with
           | [] => [']']
           | s :: rest => litChars s ++ restChars rest)⟩

/-- Embeds `merge_tags` (main.rs lines 102-108): parse the stored
`tags_json` (a parse failure or absent value yields the empty set), insert
each trimmed non-empty addition into the ordered set, serialize the sorted
sequence back to JSON. -/
def merge_tags (old_json : Option String) (add : List String) : String :=
  serializeArr (mergeTagsCore ((old_json.bind parseArr).getD []) add)

/-! ### The serializer and the parser round-trip -/

theorem strMk_data (s : String) : String.mk s.data = s := by
  cases s
  rfl

theorem skipWs_cons (c : Char) (r : List Char) (h : jsonWs c = false) :
    skipWs (c :: r) = c :: r := by
  simp [skipWs, h]

theorem hexVal_digit : ∀ k < 16, hexVal ("0123456789abcdef".data.getD k '0') = some k := by
  decide

theorem parseStrF_escaped : ∀ (cs : List Char) (f : Nat) (rest : List Char),
    (cs.flatMap escapeChar).length < f →
    parseStrF f (cs.flatMap escapeChar ++ '"' :: rest) = some (cs, rest) := by
  intro cs
  induction cs with
  | nil =>
      intro f rest hf
      match f, hf with
      | f' + 1, _ =>
        simp [parseStrF]
  | cons c cs ih =>
      intro f rest hf
      simp only [List.flatMap_cons, List.length_append] at hf
      match f, hf with
      | f' + 1, hf =>
        have hlen : 1 ≤ (escapeChar c).length := by
          unfold escapeChar
          repeat' split
          all_goals simp
        have hih := ih f' rest (by omega)
        simp only [List.flatMap_cons, List.append_assoc]
        by_cases h1 : c = '"'
        · subst h1
          rw [show escapeChar '"' = ['\\', '"'] from rfl]
          simp [parseStrF, parseEscF, unescape, hih]
        · by_cases h2 : c = '\\'
          · subst h2
            rw [show escapeChar '\\' = ['\\', '\\'] from rfl]
            simp [parseStrF, parseEscF, unescape, hih]
          · by_cases h3 : c.toNat = 8
            · have hesc : escapeChar c = ['\\', 'b'] := by
                simp [escapeChar, h1, h2, h3]
              have hc : Char.ofNat 8 = c := by rw [← h3, Char.ofNat_toNat]
              rw [hesc]
              simp [parseStrF, parseEscF, unescape, hih]
              exact hc
            · by_cases h4 : c = '\t'
              · subst h4
                rw [show escapeChar '\t' = ['\\', 't'] from rfl]
                simp [parseStrF, parseEscF, unescape, hih]
              · by_cases h5 : c = '\n'
                · subst h5
                  rw [show escapeChar '\n' = ['\\', 'n'] from rfl]
                  simp [parseStrF, parseEscF, unescape, hih]
                · by_cases h6 : c.toNat = 12
                  · have hesc : escapeChar c = ['\\', 'f'] := by
                      simp [escapeChar, h1, h2, h3, h4, h5, h6]
                    have hc : Char.ofNat 12 = c := by rw [← h6, Char.ofNat_toNat]
                    rw [hesc]
                    simp [parseStrF, parseEscF, unescape, hih]
                    exact hc
                  · by_cases h7 : c.toNat = 13
                    · have hesc : escapeChar c = ['\\', 'r'] := by
                        simp [escapeChar, h1, h2, h3, h4, h5, h6, h7]
                      have hc : Char.ofNat 13 = c := by rw [← h7, Char.ofNat_toNat]
                      rw [hesc]
                      simp [parseStrF, parseEscF, unescape, hih]
                      exact hc
                    · by_cases h8 : c.toNat < 0x20
                      · have hesc : escapeChar c =
                            ['\\', 'u', '0', '0',
                             "0123456789abcdef".data.getD (c.toNat / 16) '0',
                             "0123456789abcdef".data.getD (c.toNat % 16) '0'] := by
                          simp [escapeChar, h1, h2, h3, h4, h5, h6, h7, h8]
                        have hd1 := hexVal_digit (c.toNat / 16) (by omega)
                        have hd2 := hexVal_digit (c.toNat % 16) (by omega)
                        have hh : hex4 '0' '0'
                            ("0123456789abcdef".data.getD (c.toNat / 16) '0')
                            ("0123456789abcdef".data.getD (c.toNat % 16) '0') =
                            some c.toNat := by
                          have h0 : hexVal '0' = some 0 := by decide
                          simp only [hex4, h0, hd1, hd2, Option.bind_eq_bind,
                            Option.some_bind, Option.pure_def, Option.some_inj]
                          omega
                        have hs1 : ¬ (0xD800 ≤ c.toNat ∧ c.toNat ≤ 0xDBFF) := by omega
                        have hs2 : ¬ (0xDC00 ≤ c.toNat ∧ c.toNat ≤ 0xDFFF) := by omega
                        rw [hesc]
                        simp only [List.cons_append, List.nil_append]
                        simp only [parseStrF, parseUniF]
                        rw [hh]
                        simp [hs1, hs2, hih, Char.ofNat_toNat]
                      · have hesc : escapeChar c = [c] := by
                          simp [escapeChar, h1, h2, h3, h4, h5, h6, h7, h8]
                        rw [hesc]
                        simp only [List.cons_append, List.nil_append, parseStrF]
                        rw [if_neg h1, if_neg h2, if_neg h8]
                        simp [hih]

theorem parseStr_escaped (cs rest : List Char) :
    parseStr (cs.flatMap escapeChar ++ '"' :: rest) = some (cs, rest) := by
  unfold parseStr
  exact parseStrF_escaped cs _ rest (by simp [List.length_append]; omega)

theorem parseRest_restChars (l : List String) : ∀ (fuel : Nat), l.length < fuel →
    parseRest fuel (restChars l) = some (l, []) := by
  induction l with
  | nil =>
      intro fuel h
      match fuel, h with
      | f + 1, _ =>
        show parseRest (f + 1) [']'] = some ([], [])
        rfl
  | cons s rest ih =>
      intro fuel h
      match fuel, h with
      | f + 1, h =>
        have ihr := ih f (by simp only [List.length_cons] at h; omega)
        show parseRest (f + 1) (',' :: (litChars s ++ restChars rest)) = _
        show (match parseStr ((s.data.flatMap escapeChar ++ ['"']) ++ restChars rest) with
              | none => none
              | some (t, rest3) =>
                  match parseRest f rest3 with
                  | none => none
                  | some (ss, r) => some (String.mk t :: ss, r)) =
            some (s :: rest, [])
        rw [List.append_assoc, List.singleton_append, parseStr_escaped]
        show (match parseRest f (restChars rest) with
              | none => none
              | some (ss, r) => some (String.mk s.data :: ss, r)) =
            some (s :: rest, [])
        rw [ihr]

theorem restChars_length_gt (l : List String) : l.length < (restChars l).length := by
  induction l with
  | nil => simp [restChars]
  | cons s rest ih =>
      simp only [restChars, List.length_cons, List.length_append]
      omega

theorem parseArr_serializeArr (l : List String) : parseArr (serializeArr l) = some l := by
  cases l with
  | nil =>
      show parseArr ⟨'[' :: [']']⟩ = some []
      rfl
  | cons s rest =>
      have hfuel : rest.length <
          (⟨'[' :: (litChars s ++ restChars rest)⟩ : String).length := by
        have h1 := restChars_length_gt rest
        simp only [String.length, List.length_cons, List.length_append]
        omega
      show parseArr ⟨'[' :: (litChars s ++ restChars rest)⟩ = some (s :: rest)
      show (match parseStr ((s.data.flatMap escapeChar ++ ['"']) ++ restChars rest) with
            | none => none
            | some (t, rest3) =>
                match parseRest (⟨'[' :: (litChars s ++ restChars rest)⟩ : String).length
                    rest3 with
                | none => none
                | some (ts, r) => some (String.mk t :: ts, r)).bind
          (fun p => if skipWs p.2 = [] then some p.1 else none) = some (s :: rest)
      rw [List.append_assoc, List.singleton_append, parseStr_escaped]
      show (match parseRest (⟨'[' :: (litChars s ++ restChars rest)⟩ : String).length
              (restChars rest) with
            | none => none
            | some (ts, r) => some (String.mk s.data :: ts, r)).bind
          (fun p => if skipWs p.2 = [] then some p.1 else none) = some (s :: rest)
      rw [parseRest_restChars rest _ hfuel]
      show some (String.mk s.data :: rest) = some (s :: rest)
      rw [strMk_data]

/-- The JSON produced by `merge_tags` always parses back to the sorted
merged tag sequence. -/
theorem merge_tags_parse (old_json : Option String) (add : List String) :
    parseArr (merge_tags old_json add) =
      some (mergeTagsCore ((old_json.bind parseArr).getD []) add) :=
  parseArr_serializeArr _


/-! ### The `notes` table, its FTS triggers, and the route operations

The SQLite schema (main.rs lines 41-74) is one `notes` table plus a
content-backed FTS table kept in sync by the `notes_ai` / `notes_ad` /
`notes_au` triggers.  The state below carries the note rows, the FTS
entries, and the next rowid; each route's database work becomes a
state-passing function.  `f32` highlight coordinates are modelled as
rationals. -/

/-- A highlight rectangle (main.rs line 18). -/
structure Rect where
  x : Rat
  y : Rat
  w : Rat
  h : Rat
deriving DecidableEq, Repr

/-- One row of the `notes` table (main.rs lines 46-52). `tags_json` and
`highlights` hold what the row's `tags_json` and `highlights_json`
columns serialize. -/
structure Note where
  rowid : Nat
  id : String
  created_at : String
  title : String
  plaintext : Option String
  html : Option String
  source_url : Option String
  text_quote : Option String
  preview_path : Option String
  tags_json : Option String
  page_number : Option Int
  highlights : List Rect
deriving DecidableEq, Repr

/-- One row of the `notes_fts` table (main.rs lines 55-56): the indexed
columns `title`, `plaintext`, `html`, `tags`, keyed by the note's rowid. -/
structure FtsEntry where
  rowid : Nat
  title : String
  plaintext : Option String
  html : Option String
  tags : String
deriving DecidableEq, Repr

/-- The persistent state: note rows, FTS entries, next fresh rowid. -/
structure DB where
  notes : List Note
  fts : List FtsEntry
  nextRowid : Nat
deriving DecidableEq, Repr

/-- Space-join the stored tag set, as the triggers' `SELECT
COALESCE(group_concat(value, ' '), '') FROM json_each(new.tags_json)`
(main.rs lines 61, 70): an absent or empty array yields the empty
string. -/
def tagsText (tags_json : Option String) : String :=
  match (tags_json.bind parseArr).getD [] with
  | [] => ""
  | t :: ts => ts.foldl (fun acc u => acc ++ " " ++ u) t

/-- The FTS row the insert/update triggers derive from a note row
(main.rs lines 58-71). -/
def mkFts (n : Note) : FtsEntry :=
  { rowid := n.rowid, title := n.title, plaintext := n.plaintext,
    html := n.html, tags := tagsText n.tags_json }

/-- `SELECT ... FROM notes WHERE id=?1`, first row: the lookup every
per-id route performs. -/
def getNote (db : DB) (id : String) : Option Note :=
  db.notes.find? (fun n => n.id == id)

/-- `UPDATE notes SET ... WHERE id=?` together with the `notes_au`
trigger: rewrite every row with the id through `f`, and delete-then-
reinsert the FTS entry of every touched rowid (main.rs lines 66-71). -/
def applyUpdate (db : DB) (id : String) (f : Note → Note) : DB :=
  let notes' := db.notes.map (fun n => if n.id == id then f n else n)
  let touched := (db.notes.filter (fun n => n.id == id)).map (fun n => n.rowid)
  { db with
    notes := notes'
    fts := db.fts.filter (fun e => !(touched.contains e.rowid)) ++
           (notes'.filter (fun n => n.id == id)).map mkFts }

/-- The capture fields the `/clip` and `/append/:id` handlers extract from
the request payload: flattened `Option` accesses of `source.url`,
`selection.text`, `selection.html`, `ops.tags`, `ops.page`,
`ops.highlights`, and the result of `save_data_url_png` for
`media.screenshotDataUrl` (`none` when there is no screenshot or the
blob write fails). -/
structure ClipInput where
  source_url : Option String
  text : Option String
  html : Option String
  tags : Option (List String)
  page : Option Int
  highlights : Option (List Rect)
  preview : Option String
deriving DecidableEq, Repr

/-- The `/clip` title derivation (main.rs lines 146-149): trimmed
selection text, empty filtered out, first 80 characters; else the
`"Untitled clip"` placeholder. -/
def deriveTitle (text : Option String) : String :=
  match text with
  | some t => if rustTrim t = "" then "Untitled clip" else ⟨(rustTrim t).data.take 80⟩
  | none => "Untitled clip"

/-- The `/clip` route's insert (main.rs lines 141-175): build the row
(fresh id and timestamp are parameters, resolving the ambient
`Uuid::new_v4` and `Utc::now`), insert it, and let the `notes_ai` trigger
index it. -/
def createNote (db : DB) (id created_at : String) (p : ClipInput) : DB :=
  let n : Note :=
    { rowid := db.nextRowid, id := id, created_at := created_at,
      title := deriveTitle p.text,
      plaintext := p.text, html := p.html,
      source_url := p.source_url, text_quote := p.text,
      preview_path := p.preview,
      tags_json := some (serializeArr (p.tags.getD [])),
      page_number := p.page,
      highlights := p.highlights.getD [] }
  { notes := db.notes ++ [n], fts := db.fts ++ [mkFts n],
    nextRowid := db.nextRowid + 1 }

/-- The `/append/:id` route (main.rs lines 178-206): read the existing
`plaintext`, `html`, `tags_json`, `preview_path`; `none` (HTTP 404) when
no row has the id; else merge text and html with a blank-line separator,
union the tags, keep an existing preview (`COALESCE(preview_path, ?4)`),
and write back, the `notes_au` trigger re-indexing the row. -/
def appendNote (db : DB) (id : String) (p : ClipInput) : Option DB :=
  match getNote db id with
  | none => none
  | some n =>
      let add_text := p.text.getD ""
      let add_html := p.html.getD ""
      let new_pt := mergeText n.plaintext add_text
      let new_html := mergeText n.html add_html
      let tags_json := merge_tags n.tags_json (p.tags.getD [])
      let preview_rel : Option String :=
        if n.preview_path = none then p.preview else n.preview_path
      some (applyUpdate db id (fun m =>
        { m with plaintext := some new_pt, html := some new_html,
                 tags_json := some tags_json,
                 preview_path := m.preview_path.or preview_rel }))

/-- The `/update/:id` route (main.rs lines 209-226): read the old
`tags_json` (absent row reads as `NULL`), merge when tags are provided,
then `UPDATE notes SET title=COALESCE(?1,title), tags_json=?2 WHERE
id=?3`; the response is always `ok:true`, also when no row matched. -/
def updateNote (db : DB) (id : String) (title : Option String)
    (tags : Option (List String)) : Bool × DB :=
  let old_tags_json : Option String :=
    match getNote db id with
    | some n => n.tags_json
    | none => none
  let merged : String :=
    match tags with
    | some v => merge_tags old_tags_json v
    | none => old_tags_json.getD "[]"
  (true, applyUpdate db id (fun n =>
    { n with title := title.getD n.title, tags_json := some merged }))

/-- The `/delete/:id` route (main.rs lines 325-332): `DELETE FROM notes
WHERE id=?1`, the `notes_ad` trigger retracting each deleted rowid from
the index; returns the affected row count. -/
def deleteNote (db : DB) (id : String) : Nat × DB :=
  let removed := db.notes.filter (fun n => n.id == id)
  let touched := removed.map (fun n => n.rowid)
  (removed.length,
   { db with
     notes := db.notes.filter (fun n => !(n.id == id))
     fts := db.fts.filter (fun e => !(touched.contains e.rowid)) })

/-- The list/search response shape (main.rs line 26). -/
structure NoteListItem where
  id : String
  title : String
  created_at : String
  source_url : Option String
  tags : List String
  snippet : Option String
  preview_path : Option String
deriving DecidableEq, Repr

/-- The snippet derivation (main.rs line 247): trim, first 160
characters, ellipsis when truncated. -/
def snippetOf (s : String) : String :=
  let t := rustTrim s
  if 160 < t.data.length then ⟨t.data.take 160 ++ ['…']⟩ else t

/-- Shape one row as a list/search summary (main.rs lines 239-248):
`tags_json` parsed back to a list (defaulting to empty), snippet from
`plaintext`. -/
def noteItem (n : Note) : NoteListItem :=
  { id := n.id, title := n.title, created_at := n.created_at,
    source_url := n.source_url,
    tags := (n.tags_json.bind parseArr).getD [],
    snippet := n.plaintext.map snippetOf,
    preview_path := n.preview_path }

/-- `ORDER BY created_at DESC`: newest first under SQLite's binary text
collation (byte order, embedded as the code-point order `strLt`). -/
def newerFirst (a b : Note) : Prop := strLt a.created_at b.created_at = false

instance : DecidableRel newerFirst := fun a b => by
  unfold newerFirst; infer_instance

instance : IsTotal Note newerFirst :=
  ⟨fun a b => by
    unfold newerFirst
    cases h : strLt a.created_at b.created_at with
    | false => exact Or.inl rfl
    | true =>
        cases h2 : strLt b.created_at a.created_at with
        | false => exact Or.inr rfl
        | true => exact absurd (lexLt_trans _ _ _ h h2) (by simp [strLt, lexLt_irrefl])⟩

instance : IsTrans Note newerFirst :=
  ⟨fun a b c hab hbc => by
    unfold newerFirst at hab hbc ⊢
    cases hac : strLt a.created_at c.created_at with
    | false => rfl
    | true =>
        cases hcb : strLt c.created_at b.created_at with
        | true =>
            have h := lexLt_trans _ _ _ hac hcb
            rw [show lexLt a.created_at.data b.created_at.data =
              strLt a.created_at b.created_at from rfl, hab] at h
            exact h.symm
        | false =>
            cases hbc2 : strLt b.created_at c.created_at with
            | true => rw [hbc2] at hbc; exact hbc
            | false =>
                have he := strLt_total hbc2 hcb
                rw [he] at hab
                rw [hac] at hab
                exact hab⟩

/-- The rows of `notes` sorted newest first. -/
def sortByCreatedDesc (l : List Note) : List Note :=
  List.insertionSort newerFirst l

/-- The `/notes` route (main.rs lines 228-254): all notes newest first,
`LIMIT 200`, shaped as summaries. -/
def listNotes (db : DB) : List NoteListItem :=
  ((sortByCreatedDesc db.notes).take 200).map noteItem

/-- Modelled from the spec: the FTS5 `unicode61` tokenizer (the index
engine is outside this repository) — maximal alphanumeric runs,
ASCII-case-folded. -/
def foldChar (c : Char) : Char :=
  if 'A' ≤ c ∧ c ≤ 'Z' then Char.ofNat (c.toNat + 32) else c

/-- Whether a character continues a token. -/
def isTokChar (c : Char) : Bool := c.isAlphanum

/-- Split characters into tokens: maximal alphanumeric runs, folded. -/
def tokensAux : List Char → List Char → List (List Char)
  | [], acc => if acc = [] then [] else [acc.reverse]
  | c :: rest, acc =>
      if isTokChar c then tokensAux rest (foldChar c :: acc)
      else if acc = [] then tokensAux rest []
      else acc.reverse :: tokensAux rest []

/-- The tokens of a string. -/
def strTokens (s : String) : List String :=
  (tokensAux s.data []).map String.mk

/-- The tokens the FTS index holds for an entry: its four indexed
columns tokenized. -/
def entryTokens (e : FtsEntry) : List String :=
  strTokens e.title ++ strTokens (e.plaintext.getD "") ++
  strTokens (e.html.getD "") ++ strTokens e.tags

/-- Modelled from the spec: `notes_fts MATCH ?1` for a plain-term query
(the index engine is outside this repository) — every token of the query
occurs in the entry, and an empty token list matches nothing. -/
def ftsMatch (q : String) (e : FtsEntry) : Bool :=
  !(strTokens q).isEmpty && (strTokens q).all (fun t => (entryTokens e).contains t)

/-- Modelled from the spec: the index engine's native relevance of an
entry for a query, as the number of occurrences of the query's tokens in
the entry (the engine's ranking is outside this repository). -/
def relevance (q : String) (e : FtsEntry) : Nat :=
  ((strTokens q).map (fun t => (entryTokens e).count t)).sum

/-- The `/search` route (main.rs lines 256-295): a query whose trim is
empty lists the notes newest first, `LIMIT 100`, with no index access;
otherwise the rows joined with a matching index entry on the same rowid,
`ORDER BY n.created_at DESC LIMIT 100`. -/
def searchNotes (db : DB) (q : String) : List NoteListItem :=
  if rustTrim q = "" then
    ((sortByCreatedDesc db.notes).take 100).map noteItem
  else
    ((sortByCreatedDesc (db.notes.filter (fun n =>
        db.fts.any (fun e => e.rowid == n.rowid && ftsMatch q e)))).take 100).map
      noteItem

/-- The detail response shape (main.rs lines 28-35). -/
structure NoteDetail where
  id : String
  created_at : String
  title : String
  plaintext : Option String
  html : Option String
  source_url : Option String
  text_quote : Option String
  tags : List String
  preview_path : Option String
  page_number : Option Int
  highlights : List Rect
deriving DecidableEq, Repr

/-- Shape one row as the full detail record (main.rs lines 306-315). -/
def noteDetail (n : Note) : NoteDetail :=
  { id := n.id, created_at := n.created_at, title := n.title,
    plaintext := n.plaintext, html := n.html, source_url := n.source_url,
    text_quote := n.text_quote,
    tags := (n.tags_json.bind parseArr).getD [],
    preview_path := n.preview_path, page_number := n.page_number,
    highlights := n.highlights }

/-- The `/note/:id` sentinel for a missing id (main.rs lines 318-321). -/
def notFoundDetail : NoteDetail :=
  { id := "not-found", created_at := "", title := "Not found",
    plaintext := none, html := none, source_url := none, text_quote := none,
    tags := [], preview_path := none, page_number := none, highlights := [] }

/-- The `/note/:id` route (main.rs lines 297-323). -/
def noteRoute (db : DB) (id : String) : NoteDetail :=
  match getNote db id with
  | some n => noteDetail n
  | none => notFoundDetail

/-- The `/export/:id.md` markdown body (main.rs lines 334-362): title
heading, created line, optional source and tags lines, blank line, then
the optional plaintext and HTML sections; a missing id exports the
`"Not found"` sentinel row. -/
def exportMd (db : DB) (id : String) : String :=
  let row : String × String × Option String × Option String ×
      Option String × Option String :=
    match getNote db id with
    | some n => (n.title, n.created_at, n.plaintext, n.html, n.source_url,
                 n.tags_json)
    | none => ("Not found", "", none, none, none, none)
  let tags : List String := (row.2.2.2.2.2.bind parseArr).getD []
  "# " ++ row.1 ++ "\n\n" ++
  "- **Created:** " ++ row.2.1 ++ "\n" ++
  (match row.2.2.2.2.1 with
   | some u => "- **Source:** " ++ u ++ "\n"
   | none => "") ++
  (if tags.isEmpty then ""
   else "- **Tags:** " ++
     (match tags.map (fun t => "#" ++ t) with
      | [] => ""
      | t :: ts => ts.foldl (fun acc u => acc ++ " " ++ u) t) ++ "\n") ++
  "\n" ++
  (match row.2.2.1 with
   | some pt => "## Clip (plaintext)\n\n" ++ pt ++ "\n\n"
   | none => "") ++
  (match row.2.2.2.1 with
   | some h => "## Clip (HTML)\n\n```html\n" ++ h ++ "\n```\n"
   | none => "")

/-! ### The `/file/*path` route -/

/-- A path component, as `std::path::Component` on Unix (the `Prefix`
variant is Windows-only and cannot arise). -/
inductive PathComp where
  | rootDir : PathComp
  | curDir : PathComp
  | parentDir : PathComp
  | normal : String → PathComp
deriving DecidableEq, Repr

/-- Split characters at `'/'` separators. -/
def splitSlash : List Char → List Char → List (List Char)
  | [], acc => [acc.reverse]
  | c :: rest, acc =>
      if c = '/' then acc.reverse :: splitSlash rest []
      else splitSlash rest (c :: acc)

/-- A non-leading segment as a component: empty and `.` segments vanish,
`..` is `ParentDir`. -/
def segComp (seg : List Char) : Option PathComp :=
  if seg = [] then none
  else if seg = ['.'] then none
  else if seg = ['.', '.'] then some PathComp.parentDir
  else some (PathComp.normal ⟨seg⟩)

/-- `PathBuf::from(path).components()` on Unix: a leading empty segment
is `RootDir`, a leading `.` is `CurDir`, later empty and `.` segments
are dropped, `..` is `ParentDir`. -/
def pathComponents (s : String) : List PathComp :=
  if s = "" then []
  else
    match splitSlash s.data [] with
    | [] => []
    | first :: rest =>
        let tail := rest.filterMap segComp
        if first = [] then PathComp.rootDir :: tail
        else if first = ['.'] then PathComp.curDir :: tail
        else if first = ['.', '.'] then PathComp.parentDir :: tail
        else PathComp.normal ⟨first⟩ :: tail

/-- The `/file/*path` response: status, body, and the path handed to
`fs::read` (`none` when no read was attempted). -/
structure FileResp where
  status : Nat
  body : List Nat
  readPath : Option String
deriving DecidableEq, Repr

/-- The `/file/*path` route (main.rs lines 117-138): reject any path with
a `ParentDir`, `RootDir` or `Prefix` component with 400 before touching
the filesystem; otherwise read the file under the data directory, 404
when the read fails. `fs` maps the requested relative path to its bytes. -/
def fileRoute (fs : String → Option (List Nat)) (path : String) : FileResp :=
  if (pathComponents path).any
      (fun c => match c with
                | PathComp.parentDir => true
                | PathComp.rootDir => true
                | _ => false) then
    { status := 400, body := [], readPath := none }
  else
    match fs path with
    | some bytes => { status := 200, body := bytes, readPath := some path }
    | none => { status := 404, body := [], readPath := some path }


/-! ### Helper lemmas about the operations -/

theorem mergeText_empty (ex : Option String) : mergeText ex "" = ex.getD "" := by
  cases ex with
  | none => rfl
  | some prev =>
      simp only [mergeText, Option.getD_some]
      rw [if_neg (by simp)]
      by_cases h : prev = ""
      · rw [if_pos h, h]
      · rw [if_neg h]

theorem mergeText_none (a : String) : mergeText none a = a := rfl

theorem mergeText_some_empty (a : String) : mergeText (some "") a = a := by
  simp [mergeText]

theorem mergeText_append (prev a : String) (hp : prev ≠ "") (ha : a ≠ "") :
    mergeText (some prev) a = prev ++ "\n\n" ++ a := by
  simp [mergeText, hp, ha]

theorem find?_map_update (l : List Note) (id : String) (f : Note → Note)
    (hf : ∀ m, (f m).id = m.id) :
    (l.map (fun n => if n.id == id then f n else n)).find? (fun n => n.id == id) =
      (l.find? (fun n => n.id == id)).map f := by
  induction l with
  | nil => rfl
  | cons n rest ih =>
      simp only [List.map_cons, List.find?_cons]
      by_cases h : n.id == id
      · rw [if_pos h]
        have h2 : ((f n).id == id) = true := by rw [hf n]; exact h
        simp [h, h2]
      · rw [if_neg h]
        have hb : (n.id == id) = false := by simpa using h
        rw [hb]
        exact ih

theorem getNote_applyUpdate (db : DB) (id : String) (f : Note → Note)
    (hf : ∀ m, (f m).id = m.id) :
    getNote (applyUpdate db id f) id = (getNote db id).map f :=
  find?_map_update db.notes id f hf

theorem getNote_deleteNote (db : DB) (id : String) :
    getNote (deleteNote db id).2 id = none := by
  apply List.find?_eq_none.2
  intro n hn
  have := (List.mem_filter.1 hn).2
  simp only [Bool.not_eq_true'] at this
  simp [this]

theorem searchNotes_mem (db : DB) (q : String) (item : NoteListItem)
    (h : item ∈ searchNotes db q) : ∃ n ∈ db.notes, item = noteItem n := by
  unfold searchNotes at h
  by_cases hq : rustTrim q = ""
  · rw [if_pos hq] at h
    obtain ⟨n, hn, rfl⟩ := List.mem_map.1 h
    have hn2 := List.mem_of_mem_take hn
    have hn3 := (List.perm_insertionSort newerFirst db.notes).mem_iff.1 hn2
    exact ⟨n, hn3, rfl⟩
  · rw [if_neg hq] at h
    obtain ⟨n, hn, rfl⟩ := List.mem_map.1 h
    have hn2 := List.mem_of_mem_take hn
    have hn3 := (List.perm_insertionSort newerFirst _).mem_iff.1 hn2
    exact ⟨n, (List.mem_filter.1 hn3).1, rfl⟩

theorem appendNote_found (db : DB) (id : String) (p : ClipInput) (n : Note)
    (hn : getNote db id = some n) :
    appendNote db id p =
      some (applyUpdate db id (fun m =>
        { m with
          plaintext := some (mergeText n.plaintext (p.text.getD ""))
          html := some (mergeText n.html (p.html.getD ""))
          tags_json := some (merge_tags n.tags_json (p.tags.getD []))
          preview_path := m.preview_path.or
            (if n.preview_path = none then p.preview else n.preview_path) })) := by
  unfold appendNote
  rw [hn]


/-! ### Claim theorems -/

/-- C6: for all tag inputs, `merge_tags` trims each addition, drops empty
strings, never removes an existing tag, and returns a deduplicated,
deterministically sorted sequence; applying the same additions a second
time leaves the result unchanged (idempotent), and permuting the
additions' order yields the same result (commutative). -/
theorem C6_merge_tags_algebra (old add : List String) :
    (mergeTagsCore old add).Sorted strLtP ∧
    (mergeTagsCore old add).Nodup ∧
    (∀ x, x ∈ mergeTagsCore old add ↔
       x ∈ old ∨ ∃ t ∈ add, rustTrim t ≠ "" ∧ rustTrim t = x) ∧
    (∀ x ∈ old, x ∈ mergeTagsCore old add) ∧
    mergeTagsCore (mergeTagsCore old add) add = mergeTagsCore old add ∧
    (∀ old_json, merge_tags old_json add =
       serializeArr (mergeTagsCore ((old_json.bind parseArr).getD []) add)) ∧
    (∀ old_json, merge_tags (some (merge_tags old_json add)) add =
       merge_tags old_json add) ∧
    (∀ add', add.Perm add' →
       mergeTagsCore old add = mergeTagsCore old add' ∧
       ∀ old_json, merge_tags old_json add = merge_tags old_json add') := by
  refine ⟨mergeTagsCore_sorted old add, mergeTagsCore_nodup old add,
    mem_mergeTagsCore old add, mergeTagsCore_subset old add,
    mergeTagsCore_idem old add, fun _ => rfl, fun old_json => ?_,
    fun add' h => ⟨mergeTagsCore_comm old h, fun old_json =>
      congrArg serializeArr (mergeTagsCore_comm _ h)⟩⟩
  show serializeArr (mergeTagsCore
      (((some (merge_tags old_json add)).bind parseArr).getD []) add) = _
  rw [Option.some_bind, merge_tags_parse, Option.getD_some, mergeTagsCore_idem]
  rfl

/-- C6 witness: the algebra evaluated at concrete inputs, including a
concrete permutation of the additions. -/
theorem C6_merge_tags_algebra_witness :
    (["b", " a ", "", "a"].Perm ["", " a ", "a", "b"]) ∧
    (mergeTagsCore ["ml"] ["b", " a ", "", "a"] =
       mergeTagsCore ["ml"] ["", " a ", "a", "b"] ∧
     ∀ old_json, merge_tags old_json ["b", " a ", "", "a"] =
       merge_tags old_json ["", " a ", "a", "b"]) :=
  ⟨by decide,
   (C6_merge_tags_algebra ["ml"] ["b", " a ", "", "a"]).2.2.2.2.2.2.2
     ["", " a ", "a", "b"] (by decide)⟩

/-- C10: `merge_tags` is total over its stored input: for every stored
tags value that is absent or fails to parse as a JSON array of strings,
it treats the existing set as empty and still returns a valid serialized
sorted array, never raising an error. -/
theorem C10_merge_tags_total (old_json : Option String) (add : List String)
    (h : old_json.bind parseArr = none) :
    merge_tags old_json add = merge_tags none add ∧
    merge_tags old_json add = serializeArr (mergeTagsCore [] add) ∧
    parseArr (merge_tags old_json add) = some (mergeTagsCore [] add) ∧
    (mergeTagsCore [] add).Sorted strLtP ∧
    (mergeTagsCore [] add).Nodup := by
  have he : (old_json.bind parseArr).getD [] = [] := by rw [h]; rfl
  have h1 : merge_tags old_json add = serializeArr (mergeTagsCore [] add) := by
    unfold merge_tags
    rw [he]
  refine ⟨h1, h1, ?_, mergeTagsCore_sorted [] add, mergeTagsCore_nodup [] add⟩
  rw [h1, parseArr_serializeArr]

/-- C10 witness: a stored value that is not JSON is treated as the empty
set and the result still parses back as a sorted array. -/
theorem C10_merge_tags_total_witness :
    ((some "oops" : Option String).bind parseArr = none) ∧
    (merge_tags (some "oops") ["b", " a "] = merge_tags none ["b", " a "] ∧
     merge_tags (some "oops") ["b", " a "] =
       serializeArr (mergeTagsCore [] ["b", " a "]) ∧
     parseArr (merge_tags (some "oops") ["b", " a "]) =
       some (mergeTagsCore [] ["b", " a "]) ∧
     (mergeTagsCore [] ["b", " a "]).Sorted strLtP ∧
     (mergeTagsCore [] ["b", " a "]).Nodup) :=
  ⟨by decide, C10_merge_tags_total (some "oops") ["b", " a "] (by decide)⟩

/-- C9: exporting a nonexistent id does not fail or propagate an error:
it returns a well-formed markdown document whose title is the fixed
sentinel "Not found" with empty created_at and no source, tags, or body
sections. -/
theorem C9_export_missing (db : DB) (id : String) (h : getNote db id = none) :
    exportMd db id = "# Not found\n\n- **Created:** \n\n" := by
  unfold exportMd
  rw [h]
  rfl

/-- C9 witness: exporting from an empty store. -/
theorem C9_export_missing_witness :
    (getNote ⟨[], [], 1⟩ "missing" = none) ∧
    exportMd ⟨[], [], 1⟩ "missing" = "# Not found\n\n- **Created:** \n\n" :=
  ⟨rfl, C9_export_missing ⟨[], [], 1⟩ "missing" rfl⟩

/-- C8: for every requested file path that contains a parent-directory
component (or an absolute/root component), the blob-read operation
rejects the request with a bad-request failure and reads no file from
disk. -/
theorem C8_traversal_rejected (fs : String → Option (List Nat)) (path : String)
    (h : PathComp.parentDir ∈ pathComponents path ∨
         PathComp.rootDir ∈ pathComponents path) :
    fileRoute fs path = { status := 400, body := [], readPath := none } := by
  unfold fileRoute
  rw [if_pos]
  apply List.any_eq_true.2
  rcases h with h | h
  · exact ⟨PathComp.parentDir, h, rfl⟩
  · exact ⟨PathComp.rootDir, h, rfl⟩

/-- C8 witness: a traversal path and an absolute path are both rejected
without a read, even when the filesystem could serve them. -/
theorem C8_traversal_rejected_witness :
    (PathComp.parentDir ∈ pathComponents "../secret" ∨
       PathComp.rootDir ∈ pathComponents "../secret") ∧
    fileRoute (fun _ => some [7]) "../secret" =
      { status := 400, body := [], readPath := none } :=
  ⟨Or.inl (by decide), C8_traversal_rejected _ "../secret" (Or.inl (by decide))⟩


/-- C2: for every existing note, append with empty text leaves plaintext
unchanged (as content), append with non-empty text onto empty or absent
plaintext stores exactly the addition, and append with non-empty text
onto non-empty plaintext stores the existing text, then a blank-line
separator, then the addition, never dropping prior content — and
likewise for html. -/
theorem C2_append_merge_text (db : DB) (id : String) (p : ClipInput) (n : Note)
    (hn : getNote db id = some n) :
    ∃ db', appendNote db id p = some db' ∧
      ∃ n', getNote db' id = some n' ∧
        n'.plaintext = some (mergeText n.plaintext (p.text.getD "")) ∧
        n'.html = some (mergeText n.html (p.html.getD "")) ∧
        (∀ ex : Option String, mergeText ex "" = ex.getD "") ∧
        (∀ a : String, mergeText none a = a ∧ mergeText (some "") a = a) ∧
        (∀ prev a : String, prev ≠ "" → a ≠ "" →
           mergeText (some prev) a = prev ++ "\n\n" ++ a ∧
           ∃ suffix, mergeText (some prev) a = prev ++ suffix) := by
  refine ⟨_, appendNote_found db id p n hn, ?_⟩
  have hg := getNote_applyUpdate db id
    (fun m =>
      { m with
        plaintext := some (mergeText n.plaintext (p.text.getD ""))
        html := some (mergeText n.html (p.html.getD ""))
        tags_json := some (merge_tags n.tags_json (p.tags.getD []))
        preview_path := m.preview_path.or
          (if n.preview_path = none then p.preview else n.preview_path) })
    (fun m => rfl)
  rw [hn] at hg
  refine ⟨_, hg, rfl, rfl, mergeText_empty, fun a => ⟨mergeText_none a,
    mergeText_some_empty a⟩, fun prev a hp ha => ⟨mergeText_append prev a hp ha,
    "\n\n" ++ a, ?_⟩⟩
  rw [mergeText_append prev a hp ha, String.append_assoc]

/-- The one-note store for the C2 witness. -/
def c2note : Note :=
  { rowid := 1, id := "i", created_at := "2024", title := "t",
    plaintext := some "Hello", html := none, source_url := none,
    text_quote := some "Hello", preview_path := none,
    tags_json := some "[]", page_number := none, highlights := [] }

/-- The C2 witness store. -/
def c2db : DB := ⟨[c2note], [], 2⟩

/-- The C2 witness payload. -/
def c2input : ClipInput := ⟨none, some "More", none, none, none, none, none⟩

/-- C2 witness: appending onto a one-note store. -/
theorem C2_append_merge_text_witness :
    (getNote c2db "i" = some c2note) ∧
    (∃ db', appendNote c2db "i" c2input = some db' ∧
      ∃ n', getNote db' "i" = some n' ∧
        n'.plaintext = some (mergeText c2note.plaintext (c2input.text.getD "")) ∧
        n'.html = some (mergeText c2note.html (c2input.html.getD "")) ∧
        (∀ ex : Option String, mergeText ex "" = ex.getD "") ∧
        (∀ a : String, mergeText none a = a ∧ mergeText (some "") a = a) ∧
        (∀ prev a : String, prev ≠ "" → a ≠ "" →
           mergeText (some prev) a = prev ++ "\n\n" ++ a ∧
           ∃ suffix, mergeText (some prev) a = prev ++ suffix)) :=
  ⟨by decide, C2_append_merge_text c2db "i" c2input c2note (by decide)⟩

/-- C5: once preview_path is non-null, no later append call replaces it,
even when the later call supplies a different preview; when it is null,
an append may set it (first-write-wins). -/
theorem C5_preview_first_write (db : DB) (id : String) (p : ClipInput) (n : Note)
    (hn : getNote db id = some n) :
    ∃ db', appendNote db id p = some db' ∧
      ∃ n', getNote db' id = some n' ∧
        (∀ pv, n.preview_path = some pv → n'.preview_path = some pv) ∧
        (n.preview_path = none → n'.preview_path = p.preview) := by
  refine ⟨_, appendNote_found db id p n hn, ?_⟩
  have hg := getNote_applyUpdate db id
    (fun m =>
      { m with
        plaintext := some (mergeText n.plaintext (p.text.getD ""))
        html := some (mergeText n.html (p.html.getD ""))
        tags_json := some (merge_tags n.tags_json (p.tags.getD []))
        preview_path := m.preview_path.or
          (if n.preview_path = none then p.preview else n.preview_path) })
    (fun m => rfl)
  rw [hn] at hg
  refine ⟨_, hg, ?_, ?_⟩
  · intro pv hpv
    show n.preview_path.or _ = some pv
    rw [hpv]
    rfl
  · intro hnone
    show n.preview_path.or (if n.preview_path = none then p.preview
      else n.preview_path) = p.preview
    rw [hnone, if_pos rfl]
    rfl

/-- The one-note store (with preview set) for the C5 witness. -/
def c5note : Note :=
  { rowid := 1, id := "i", created_at := "2024", title := "t",
    plaintext := none, html := none, source_url := none,
    text_quote := none, preview_path := some "previews/a.png",
    tags_json := some "[]", page_number := none, highlights := [] }

/-- The C5 witness store. -/
def c5db : DB := ⟨[c5note], [], 2⟩

/-- The C5 witness payload, carrying a different preview. -/
def c5input : ClipInput := ⟨none, none, none, none, none, none, some "previews/other.png"⟩

/-- C5 witness: a note with an existing preview keeps it across an append
that supplies a different preview. -/
theorem C5_preview_first_write_witness :
    (getNote c5db "i" = some c5note) ∧
    (∃ db', appendNote c5db "i" c5input = some db' ∧
      ∃ n', getNote db' "i" = some n' ∧
        (∀ pv, c5note.preview_path = some pv → n'.preview_path = some pv) ∧
        (c5note.preview_path = none → n'.preview_path = c5input.preview)) :=
  ⟨by decide, C5_preview_first_write c5db "i" c5input c5note (by decide)⟩

/-- C7: for every note and every append call, the fields id, created_at,
source_url, text_quote, page_number, and highlights are left exactly as
they were at creation; create followed by get(id) returns these fields
exactly as captured. -/
theorem C7_immutable_fields (db : DB) (id created_at : String) (p : ClipInput) :
    ((∀ n ∈ db.notes, n.id ≠ id) →
       ∃ m, getNote (createNote db id created_at p) id = some m ∧
         m.id = id ∧ m.created_at = created_at ∧ m.source_url = p.source_url ∧
         m.text_quote = p.text ∧ m.page_number = p.page ∧
         m.highlights = p.highlights.getD []) ∧
    (∀ (n : Note) (q : ClipInput) (db' : DB), getNote db id = some n →
       appendNote db id q = some db' →
       ∃ n', getNote db' id = some n' ∧ n'.id = n.id ∧
         n'.created_at = n.created_at ∧ n'.source_url = n.source_url ∧
         n'.text_quote = n.text_quote ∧ n'.page_number = n.page_number ∧
         n'.highlights = n.highlights) := by
  constructor
  · intro hfresh
    have hm : getNote (createNote db id created_at p) id = some
        { rowid := db.nextRowid, id := id, created_at := created_at,
          title := deriveTitle p.text, plaintext := p.text, html := p.html,
          source_url := p.source_url, text_quote := p.text,
          preview_path := p.preview,
          tags_json := some (serializeArr (p.tags.getD [])),
          page_number := p.page, highlights := p.highlights.getD [] } := by
      show List.find? _ (db.notes ++ [_]) = _
      rw [List.find?_append]
      have h1 : db.notes.find? (fun n => n.id == id) = none := by
        apply List.find?_eq_none.2
        intro n hn
        simpa using hfresh n hn
      rw [h1, Option.none_or]
      rw [List.find?_cons_of_pos _ (by simp)]
    exact ⟨_, hm, rfl, rfl, rfl, rfl, rfl, rfl⟩
  · intro n q db' hn ha
    rw [appendNote_found db id q n hn] at ha
    have hg := getNote_applyUpdate db id
      (fun m =>
        { m with
          plaintext := some (mergeText n.plaintext (q.text.getD ""))
          html := some (mergeText n.html (q.html.getD ""))
          tags_json := some (merge_tags n.tags_json (q.tags.getD []))
          preview_path := m.preview_path.or
            (if n.preview_path = none then q.preview else n.preview_path) })
      (fun m => rfl)
    rw [hn] at hg
    cases ha
    exact ⟨_, hg, rfl, rfl, rfl, rfl, rfl, rfl⟩

/-- The capture input for the C7 witness's create half. -/
def c7create : ClipInput :=
  ⟨some "http://s", some "Hello", none, none, some 3, some [⟨1, 2, 3, 4⟩], none⟩

/-- The already-stored note for the C7 witness's append half. -/
def c7note : Note :=
  { rowid := 1, id := "i", created_at := "2024", title := "t",
    plaintext := some "Hello", html := none, source_url := some "http://s",
    text_quote := some "Hello", preview_path := none,
    tags_json := some "[]", page_number := some 3,
    highlights := [⟨1, 2, 3, 4⟩] }

/-- The C7 witness store containing `c7note`. -/
def c7db : DB := ⟨[c7note], [mkFts c7note], 2⟩

/-- The C7 witness append payload, supplying different values for every
creation-time field. -/
def c7input : ClipInput :=
  ⟨some "http://other", some "more", some "<p>m</p>", some ["t2"], some 9,
   some [⟨5, 6, 7, 8⟩], some "p.png"⟩

/-- The store after the C7 witness append. -/
def c7db' : DB := (appendNote c7db "i" c7input).getD ⟨[], [], 1⟩

/-- C7 witness: create-then-get on an empty store returns the captured
fields, and an append onto a store that holds the note — with a payload
that supplies different values for every creation-time field — leaves
those fields intact. -/
theorem C7_immutable_fields_witness :
    ((∀ n ∈ (⟨[], [], 1⟩ : DB).notes, n.id ≠ "i") ∧
     (∃ m, getNote (createNote ⟨[], [], 1⟩ "i" "2024" c7create) "i" = some m ∧
        m.id = "i" ∧ m.created_at = "2024" ∧
        m.source_url = c7create.source_url ∧ m.text_quote = c7create.text ∧
        m.page_number = c7create.page ∧
        m.highlights = c7create.highlights.getD [])) ∧
    (getNote c7db "i" = some c7note ∧
     appendNote c7db "i" c7input = some c7db' ∧
     (∃ n', getNote c7db' "i" = some n' ∧ n'.id = c7note.id ∧
        n'.created_at = c7note.created_at ∧
        n'.source_url = c7note.source_url ∧
        n'.text_quote = c7note.text_quote ∧
        n'.page_number = c7note.page_number ∧
        n'.highlights = c7note.highlights)) :=
  ⟨⟨(by intro n hn; cases hn),
    (C7_immutable_fields ⟨[], [], 1⟩ "i" "2024" c7create).1
      (by intro n hn; cases hn)⟩,
   ⟨by decide, by decide,
    (C7_immutable_fields c7db "i" "2024" c7create).2 c7note c7input c7db'
      (by decide) (by decide)⟩⟩

/-- C3 counterexample: updating metadata of a nonexistent id returns the
success response `ok:true` with the store unchanged — not a NotFound
failure. -/
theorem C3_counterexample :
    getNote ⟨[], [], 1⟩ "missing" = none ∧
    (updateNote ⟨[], [], 1⟩ "missing" (some "T") (some ["x"])).1 = true ∧
    (updateNote ⟨[], [], 1⟩ "missing" (some "T") (some ["x"])).2 =
      (⟨[], [], 1⟩ : DB) := by
  decide

/-- The `/update/:id` body on a found row: the pair response with the
per-row update. -/
theorem updateNote_found (db : DB) (id : String) (title : Option String)
    (tags : Option (List String)) (n : Note) (hn : getNote db id = some n) :
    updateNote db id title tags =
      (true, applyUpdate db id (fun m =>
        { m with title := title.getD m.title,
                 tags_json := some (match tags with
                   | some v => merge_tags n.tags_json v
                   | none => n.tags_json.getD "[]") })) := by
  unfold updateNote
  rw [hn]

/-- C3 (amended): update_metadata on a nonexistent id returns success
(`ok:true`) and leaves the store unchanged (the UPDATE affects no rows);
on an existing id it replaces the title only when one is provided and
non-null and unions the provided tags into the existing tag set. -/
theorem C3_update_metadata (db : DB) (id : String) (title : Option String)
    (tags : Option (List String)) :
    (updateNote db id title tags).1 = true ∧
    (getNote db id = none → (updateNote db id title tags).2 = db) ∧
    (∀ n : Note, getNote db id = some n →
       ∃ n', getNote (updateNote db id title tags).2 id = some n' ∧
         n'.title = title.getD n.title ∧
         n'.tags_json = some (match tags with
           | some v => merge_tags n.tags_json v
           | none => n.tags_json.getD "[]") ∧
         (∀ v, tags = some v →
            parseArr (merge_tags n.tags_json v) =
              some (mergeTagsCore ((n.tags_json.bind parseArr).getD []) v) ∧
            ∀ x ∈ (n.tags_json.bind parseArr).getD [],
              x ∈ mergeTagsCore ((n.tags_json.bind parseArr).getD []) v)) := by
  refine ⟨rfl, ?_, ?_⟩
  · intro h
    have hpred : ∀ n ∈ db.notes, (n.id == id) = false := by
      intro n hn
      have := List.find?_eq_none.1 h n hn
      simpa using this
    have hfilter : db.notes.filter (fun n => n.id == id) = [] :=
      List.filter_eq_nil_iff.2 (fun n hn => by simp [hpred n hn])
    show applyUpdate db id _ = db
    unfold applyUpdate
    have hmap : ∀ f : Note → Note, db.notes.map
        (fun n => if n.id == id then f n else n) = db.notes := by
      intro f
      have h1 : db.notes.map (fun n => if n.id == id then f n else n) =
          db.notes.map (fun n => n) :=
        List.map_congr_left (fun n hn => by rw [if_neg (by simp [hpred n hn])])
      rw [h1]
      exact List.map_id' db.notes
    rw [hmap, hfilter]
    cases db with
    | mk notes fts next =>
        simp
        intro a ha
        simpa using hpred a ha
  · intro n hn
    rw [updateNote_found db id title tags n hn]
    have hg := getNote_applyUpdate db id
      (fun m =>
        { m with title := title.getD m.title,
                 tags_json := some (match tags with
                   | some v => merge_tags n.tags_json v
                   | none => n.tags_json.getD "[]") })
      (fun m => rfl)
    rw [hn] at hg
    exact ⟨_, hg, rfl, rfl, fun v hv =>
      ⟨merge_tags_parse n.tags_json v,
       fun x hx => mergeTagsCore_subset _ _ x hx⟩⟩

/-- The one-note store for the C3 witness. -/
def c3note : Note :=
  { rowid := 1, id := "i", created_at := "2024", title := "old",
    plaintext := none, html := none, source_url := none, text_quote := none,
    preview_path := none, tags_json := some "[\"ml\"]", page_number := none,
    highlights := [] }

/-- The C3 witness store. -/
def c3db : DB := ⟨[c3note], [mkFts c3note], 2⟩

/-- C3 witness: the amended contract evaluated on a one-note store and a
title/tags update. -/
theorem C3_update_metadata_witness :
    (updateNote c3db "i" (some "New") (some ["ai"])).1 = true ∧
    (getNote c3db "i" = none →
       (updateNote c3db "i" (some "New") (some ["ai"])).2 = c3db) ∧
    (∀ n : Note, getNote c3db "i" = some n →
       ∃ n', getNote (updateNote c3db "i" (some "New") (some ["ai"])).2 "i" =
           some n' ∧
         n'.title = (some "New" : Option String).getD n.title ∧
         n'.tags_json = some (match (some ["ai"] : Option (List String)) with
           | some v => merge_tags n.tags_json v
           | none => n.tags_json.getD "[]") ∧
         (∀ v, (some ["ai"] : Option (List String)) = some v →
            parseArr (merge_tags n.tags_json v) =
              some (mergeTagsCore ((n.tags_json.bind parseArr).getD []) v) ∧
            ∀ x ∈ (n.tags_json.bind parseArr).getD [],
              x ∈ mergeTagsCore ((n.tags_json.bind parseArr).getD []) v)) :=
  C3_update_metadata c3db "i" (some "New") (some ["ai"])

/-- The older, more relevant note for the C4 counterexample. -/
def c4noteA : Note :=
  { rowid := 1, id := "A", created_at := "2024-01-01", title := "tA",
    plaintext := some "apple apple apple", html := none, source_url := none,
    text_quote := none, preview_path := none, tags_json := none,
    page_number := none, highlights := [] }

/-- The newer, less relevant note for the C4 counterexample. -/
def c4noteB : Note :=
  { rowid := 2, id := "B", created_at := "2024-02-01", title := "tB",
    plaintext := some "apple", html := none, source_url := none,
    text_quote := none, preview_path := none, tags_json := none,
    page_number := none, highlights := [] }

/-- The two-note store for the C4 counterexample. -/
def c4db : DB := ⟨[c4noteA, c4noteB], [mkFts c4noteA, mkFts c4noteB], 3⟩

/-- C4 counterexample: both notes match "apple"; the strictly more
relevant note A is returned after the newer note B, so the result is not
ordered by the index engine's relevance with created_at only breaking
ties. -/
theorem C4_counterexample :
    (searchNotes c4db "apple").map (fun i => i.id) = ["B", "A"] ∧
    relevance "apple" (mkFts c4noteB) < relevance "apple" (mkFts c4noteA) ∧
    strLt c4noteA.created_at c4noteB.created_at = true := by
  decide

/-- C4 (amended): for every non-empty, non-whitespace query, search
returns at most 100 summaries ordered by created_at descending over the
index matches; for every empty or whitespace-only query, search performs
no index lookup and returns notes ordered by created_at descending
capped at 100. -/
theorem C4_search_order (db : DB) (q : String) :
    (searchNotes db q).length ≤ 100 ∧
    (searchNotes db q).Pairwise
      (fun a b => strLt a.created_at b.created_at = false) ∧
    (rustTrim q = "" →
       searchNotes db q = ((sortByCreatedDesc db.notes).take 100).map noteItem) ∧
    (rustTrim q ≠ "" →
       searchNotes db q = ((sortByCreatedDesc (db.notes.filter (fun n =>
         db.fts.any (fun e => e.rowid == n.rowid && ftsMatch q e)))).take
           100).map noteItem) := by
  refine ⟨?_, ?_, fun h => by rw [searchNotes, if_pos h],
    fun h => by rw [searchNotes, if_neg h]⟩
  · unfold searchNotes
    by_cases hq : rustTrim q = ""
    · rw [if_pos hq, List.length_map]
      exact List.length_take_le 100 _
    · rw [if_neg hq, List.length_map]
      exact List.length_take_le 100 _
  · unfold searchNotes
    by_cases hq : rustTrim q = ""
    · rw [if_pos hq]
      exact ((List.Pairwise.sublist (List.take_sublist 100 _)
        (List.sorted_insertionSort newerFirst db.notes)).map noteItem
        (fun a b h => h))
    · rw [if_neg hq]
      exact ((List.Pairwise.sublist (List.take_sublist 100 _)
        (List.sorted_insertionSort newerFirst _)).map noteItem
        (fun a b h => h))

/-- C4 witness: the amended contract evaluated on the two-note store. -/
theorem C4_search_order_witness :
    (searchNotes c4db "apple").length ≤ 100 ∧
    (searchNotes c4db "apple").Pairwise
      (fun a b => strLt a.created_at b.created_at = false) ∧
    (rustTrim "apple" = "" →
       searchNotes c4db "apple" =
         ((sortByCreatedDesc c4db.notes).take 100).map noteItem) ∧
    (rustTrim "apple" ≠ "" →
       searchNotes c4db "apple" =
         ((sortByCreatedDesc (c4db.notes.filter (fun n =>
            c4db.fts.any (fun e =>
              e.rowid == n.rowid && ftsMatch "apple" e)))).take 100).map
           noteItem) :=
  C4_search_order c4db "apple"

/-- C1: the search index mirrors exactly the set of live notes: after
delete(id), get(id) yields NotFound and a search over any term returns
no entry for that note. -/
theorem C1_delete_removes_everywhere (db : DB) (id : String)
    (hnodup : (db.notes.map (fun n => n.rowid)).Nodup)
    (hmirror : ∀ r : Nat, db.notes.any (fun n => n.rowid == r) =
       db.fts.any (fun e => e.rowid == r)) :
    getNote (deleteNote db id).2 id = none ∧
    (∀ r : Nat, (deleteNote db id).2.notes.any (fun n => n.rowid == r) =
       (deleteNote db id).2.fts.any (fun e => e.rowid == r)) ∧
    (∀ q : String, ∀ item ∈ searchNotes (deleteNote db id).2 q,
       item.id ≠ id) := by
  have hinj := List.inj_on_of_nodup_map hnodup
  refine ⟨getNote_deleteNote db id, ?_, ?_⟩
  · intro r
    rw [Bool.eq_iff_iff]
    constructor
    · intro hl
      obtain ⟨n, hn, hr⟩ := List.any_eq_true.1 hl
      have hn1 : n ∈ db.notes := (List.mem_filter.1 hn).1
      have hn2 : n.id ≠ id := by
        have h2 := (List.mem_filter.1 hn).2
        simp only [Bool.not_eq_true'] at h2
        simpa using h2
      have hnr : n.rowid = r := by simpa using hr
      have hany : db.fts.any (fun e => e.rowid == r) = true := by
        rw [← hmirror r]
        exact List.any_eq_true.2 ⟨n, hn1, hr⟩
      obtain ⟨e, he, her⟩ := List.any_eq_true.1 hany
      have her' : e.rowid = r := by simpa using her
      apply List.any_eq_true.2
      refine ⟨e, List.mem_filter.2 ⟨he, ?_⟩, her⟩
      simp only [Bool.not_eq_true']
      cases hc : ((db.notes.filter (fun m => m.id == id)).map
          (fun m => m.rowid)).contains e.rowid with
      | false => rfl
      | true =>
          exfalso
          have hmem : e.rowid ∈ (db.notes.filter (fun m => m.id == id)).map
              (fun m => m.rowid) := List.elem_iff.1 hc
          obtain ⟨m, hm, hmr⟩ := List.mem_map.1 hmem
          have hm1 : m ∈ db.notes := (List.mem_filter.1 hm).1
          have hm2 : (m.id == id) = true := (List.mem_filter.1 hm).2
          have hnm : n.rowid = m.rowid := by omega
          have heq : n = m := hinj hn1 hm1 hnm
          exact hn2 (by rw [heq]; simpa using hm2)
    · intro hl
      obtain ⟨e, he, her⟩ := List.any_eq_true.1 hl
      have he1 : e ∈ db.fts := (List.mem_filter.1 he).1
      have he2 : ((db.notes.filter (fun m => m.id == id)).map
          (fun m => m.rowid)).contains e.rowid = false := by
        have h2 := (List.mem_filter.1 he).2
        simpa using h2
      have her' : e.rowid = r := by simpa using her
      have hany : db.notes.any (fun n => n.rowid == r) = true := by
        rw [hmirror r]
        exact List.any_eq_true.2 ⟨e, he1, her⟩
      obtain ⟨n, hn, hnr⟩ := List.any_eq_true.1 hany
      have hnr' : n.rowid = r := by simpa using hnr
      apply List.any_eq_true.2
      refine ⟨n, List.mem_filter.2 ⟨hn, ?_⟩, hnr⟩
      simp only [Bool.not_eq_true']
      cases hd : (n.id == id) with
      | false => rfl
      | true =>
          exfalso
          have hmem : e.rowid ∈ (db.notes.filter (fun m => m.id == id)).map
              (fun m => m.rowid) :=
            List.mem_map.2 ⟨n, List.mem_filter.2 ⟨hn, hd⟩, by omega⟩
          have hc : ((db.notes.filter (fun m => m.id == id)).map
              (fun m => m.rowid)).contains e.rowid = true := List.elem_iff.2 hmem
          rw [he2] at hc
          cases hc
  · intro q item hitem
    obtain ⟨n, hn, rfl⟩ := searchNotes_mem _ q item hitem
    have h2 := (List.mem_filter.1 hn).2
    simp only [Bool.not_eq_true'] at h2
    show n.id ≠ id
    simpa using h2


/-- The one-note store for the C1 witness. -/
def c1note : Note :=
  { rowid := 1, id := "i", created_at := "2024", title := "t",
    plaintext := some "hello", html := none, source_url := none,
    text_quote := none, preview_path := none, tags_json := none,
    page_number := none, highlights := [] }

/-- The C1 witness store, with its index entry. -/
def c1db : DB := ⟨[c1note], [mkFts c1note], 2⟩

/-- C1 witness: deleting the only note empties both the store and the
index, and no search can return it. -/
theorem C1_delete_removes_everywhere_witness :
    ((c1db.notes.map (fun n => n.rowid)).Nodup) ∧
    (∀ r : Nat, c1db.notes.any (fun n => n.rowid == r) =
       c1db.fts.any (fun e => e.rowid == r)) ∧
    (getNote (deleteNote c1db "i").2 "i" = none ∧
     (∀ r : Nat, (deleteNote c1db "i").2.notes.any (fun n => n.rowid == r) =
        (deleteNote c1db "i").2.fts.any (fun e => e.rowid == r)) ∧
     (∀ q : String, ∀ item ∈ searchNotes (deleteNote c1db "i").2 q,
        item.id ≠ "i")) :=
  ⟨by decide, fun _ => rfl,
   C1_delete_removes_everywhere c1db "i" (by decide) (fun _ => rfl)⟩

end LevelNotes
